import Mathlib

/-!
Verification of the SCP consensus-engine fragment (the `Node` wrapper in
`consensus/scp/src/node.rs`, the result-selection helpers in
`consensus/scp/src/predicates.rs`, and the quorum-set test DSL in
`consensus/scp/src/test_utils.rs`).

The per-slot SCP state machine (`slot.rs`), the message type (`msg.rs`), the
quorum-set type (`quorum_set.rs`) and the collection helpers (`LruCache`) are
not part of the given sources; where the verified code depends on them they
are modelled from the specification document, and each such definition says so
in its doc comment.  Machine integers (`u32`, `u64`, `usize`) are modelled as
`Nat`: none of the verified operations can overflow them (counters only ever
come from inputs or grow by `+ 1` bounded by message counts).
-/

/-! ## Quorum sets

Modelled from the spec: `quorum_set.rs` is not in the sources.  The spec
(§3 DATA MODEL) gives `QuorumSet` as the recursive structure
`{ threshold: u32, members: [ NodeMember | InnerQuorumSet ] }`, which is what
the test DSL in `test_utils.rs` constructs (`QuorumSet::empty()`, field
`threshold`, `members.push(QuorumSetMember::Node ...)`,
`members.push(QuorumSetMember::InnerSet ...)`). -/

mutual

inductive QuorumSet (NId : Type) where
  | mk (threshold : Nat) (members : List (QuorumSetMember NId))

inductive QuorumSetMember (NId : Type) where
  | Node (id : NId)
  | InnerSet (qs : QuorumSet NId)

end

def QuorumSet.threshold : QuorumSet NId → Nat
  | .mk t _ => t

def QuorumSet.members : QuorumSet NId → List (QuorumSetMember NId)
  | .mk _ m => m

/-- Modelled from the spec: `QuorumSet::empty()` used by the test DSL parser,
a degenerate quorum set with threshold 0 and no members. -/
def QuorumSet.empty : QuorumSet NId := .mk 0 []

mutual

def QuorumSet.beq [DecidableEq NId] : QuorumSet NId → QuorumSet NId → Bool
  | .mk t1 m1, .mk t2 m2 => t1 == t2 && QuorumSetMember.beqList m1 m2

def QuorumSetMember.beq [DecidableEq NId] : QuorumSetMember NId → QuorumSetMember NId → Bool
  | .Node a, .Node b => a == b
  | .InnerSet q1, .InnerSet q2 => QuorumSet.beq q1 q2
  | _, _ => false

def QuorumSetMember.beqList [DecidableEq NId] :
    List (QuorumSetMember NId) → List (QuorumSetMember NId) → Bool
  | [], [] => true
  | x :: xs, y :: ys => QuorumSetMember.beq x y && QuorumSetMember.beqList xs ys
  | _, _ => false

end

mutual

theorem quorumSetBeqIff [DecidableEq NId] :
    ∀ a b : QuorumSet NId, QuorumSet.beq a b = true ↔ a = b
  | .mk t1 m1, .mk t2 m2 => by
    simp only [QuorumSet.beq, Bool.and_eq_true, beq_iff_eq, QuorumSet.mk.injEq]
    exact and_congr Iff.rfl (quorumSetMemberBeqListIff m1 m2)

theorem quorumSetMemberBeqIff [DecidableEq NId] :
    ∀ a b : QuorumSetMember NId, QuorumSetMember.beq a b = true ↔ a = b
  | .Node a, .Node b => by simp [QuorumSetMember.beq]
  | .Node a, .InnerSet q => by simp [QuorumSetMember.beq]
  | .InnerSet q, .Node b => by simp [QuorumSetMember.beq]
  | .InnerSet q1, .InnerSet q2 => by
    simp only [QuorumSetMember.beq, QuorumSetMember.InnerSet.injEq]
    exact quorumSetBeqIff q1 q2

theorem quorumSetMemberBeqListIff [DecidableEq NId] :
    ∀ a b : List (QuorumSetMember NId), QuorumSetMember.beqList a b = true ↔ a = b
  | [], [] => by simp [QuorumSetMember.beqList]
  | [], y :: ys => by simp [QuorumSetMember.beqList]
  | x :: xs, [] => by simp [QuorumSetMember.beqList]
  | x :: xs, y :: ys => by
    simp only [QuorumSetMember.beqList, Bool.and_eq_true, List.cons.injEq]
    exact and_congr (quorumSetMemberBeqIff x y) (quorumSetMemberBeqListIff xs ys)

end

instance [DecidableEq NId] : DecidableEq (QuorumSet NId) :=
  fun a b => decidable_of_iff _ (quorumSetBeqIff a b)

instance [DecidableEq NId] : DecidableEq (QuorumSetMember NId) :=
  fun a b => decidable_of_iff _ (quorumSetMemberBeqIff a b)

/-! ## Ballots, message topics and messages

Modelled from the spec: `msg.rs` is not in the sources.  The spec (§3) gives
`Ballot<V>` as `(N : u32, X : ordered list of V)` and `Msg<V>` as
`{ sender_id, sender_quorum_set, slot_index, topic }` with the five topic
payloads listed there.  Only the shape of these types is needed by the
verified `Node` code. -/

structure Ballot (V : Type) where
  N : Nat
  X : List V
deriving DecidableEq

structure NominatePayload (V : Type) where
  X : List V
  Y : List V
deriving DecidableEq

structure PreparePayload (V : Type) where
  B : Ballot V
  P : Option (Ballot V)
  PP : Option (Ballot V)
  CN : Nat
  HN : Nat
deriving DecidableEq

structure CommitPayload (V : Type) where
  B : Ballot V
  PN : Nat
  CN : Nat
  HN : Nat
deriving DecidableEq

structure ExternalizePayload (V : Type) where
  C : Ballot V
  HN : Nat
deriving DecidableEq

inductive Topic (V : Type) where
  | Nominate (payload : NominatePayload V)
  | NominatePrepare (np : NominatePayload V) (pp : PreparePayload V)
  | Prepare (payload : PreparePayload V)
  | Commit (payload : CommitPayload V)
  | Externalize (payload : ExternalizePayload V)
deriving DecidableEq

structure Msg (NId V : Type) where
  sender_id : NId
  sender_quorum_set : QuorumSet NId
  slot_index : Nat
  topic : Topic V
deriving DecidableEq

/-- The content digest used by the node's dedup cache.  The source hashes the
canonically serialized message with Sha3-256; the spec (§6) requires only a
collision-resistant digest over a canonical serialization, so it is modelled
as the identity on the message content (an injective digest). -/
def Msg.digest (m : Msg NId V) : Msg NId V := m

/-! ## The LRU dedup cache

Modelled from the spec: `mc_common::LruCache` is not in the sources.  Spec §9:
"A fixed-capacity 1000-entry insertion-ordered map with O(1) lookup and
eviction on insert"; `node.rs` relies on `get` refreshing recency and `put`
inserting (evicting the least recently used entry beyond capacity).  Entries
are kept most-recent-first. -/

structure LruCache (K : Type) where
  entries : List K
  capacity : Nat
deriving DecidableEq

def LruCache.get [DecidableEq K] (c : LruCache K) (k : K) : Bool × LruCache K :=
  if k ∈ c.entries then (true, ⟨k :: c.entries.erase k, c.capacity⟩) else (false, c)

def LruCache.put [DecidableEq K] (c : LruCache K) (k : K) : LruCache K :=
  ⟨(k :: c.entries.erase k).take c.capacity, c.capacity⟩

/-! ## The slot, modelled as an abstract transition system

Modelled from the spec: `slot.rs` (the per-slot federated-voting state
machine, §4.4) is not in the sources.  The `Node` code only depends on the
slot through its interface: `Slot::new`, `get_index`, `handle`,
`propose_values`, `process_timeouts` and `get_last_message_sent`.  The slot's
internal state is therefore an abstract type `S` and its behavior an
arbitrary `SlotModel` record of transition functions; spec obligations on the
slot ("the Slot ... emits at most one outbound Msg" for its own slot index,
"emit before archive") are stated as the predicates `SlotModel.EmitsOwnIndex`
and `SlotModel.RecordsEmission` below and assumed only where a claim needs
them.  Rust's `&mut self` methods are modelled as functions returning the
updated internal state next to the `Result`, so state changes made before an
error survive it, as they do in the source. -/

structure Slot (NId S : Type) where
  ID : NId
  Q : QuorumSet NId
  slot_index : Nat
  st : S
deriving DecidableEq

structure SlotModel (NId V E S : Type) where
  initSt : NId → QuorumSet NId → Nat → (V → Except E Unit) → (List V → List V) → S
  handleSt : Slot NId S → Msg NId V → S × Except String (Option (Msg NId V))
  proposeSt : Slot NId S → List V → S × Except String (Option (Msg NId V))
  timeoutsSt : Slot NId S → S × List (Msg NId V)
  lastMsgSent : S → Option (Msg NId V)

/-- `Slot::new`: a fresh slot for `slot_index` with the given local ID, quorum
set and callbacks. -/
def Slot.new (M : SlotModel NId V E S) (id : NId) (q : QuorumSet NId) (slot_index : Nat)
    (validity_fn : V → Except E Unit) (combine_fn : List V → List V) : Slot NId S :=
  ⟨id, q, slot_index, M.initSt id q slot_index validity_fn combine_fn⟩

/-- Spec §4.4: an emitted message carries the emitting slot's own index. -/
def SlotModel.EmitsOwnIndex (M : SlotModel NId V E S) : Prop :=
  (∀ sl m out, (M.handleSt sl m).2 = .ok (some out) → out.slot_index = sl.slot_index) ∧
  (∀ sl vs out, (M.proposeSt sl vs).2 = .ok (some out) → out.slot_index = sl.slot_index)

/-- Spec §9: "The source assumes `get_last_message_sent()` on externalized
slots never returns `None`; an implementation must uphold that by
construction (emit before archive)": after emitting, the emitted message is
the slot's last message sent. -/
def SlotModel.RecordsEmission (M : SlotModel NId V E S) : Prop :=
  (∀ sl m out, (M.handleSt sl m).2 = .ok (some out) →
    M.lastMsgSent (M.handleSt sl m).1 = some out) ∧
  (∀ sl vs out, (M.proposeSt sl vs).2 = .ok (some out) →
    M.lastMsgSent (M.proposeSt sl vs).1 = some out)

/-! ## The node (`node.rs`)

The embedding of `Node` and its operations follows `node.rs` line by line.
The logger is omitted (logging is the only effect the source performs with
it).  `scp_timebase: Duration` is modelled in milliseconds. -/

def MAX_EXTERNALIZED_SLOTS : Nat := 10

def LAST_SEEN_HISTORY_SIZE : Nat := 1000

structure Node (NId V E S : Type) where
  ID : NId
  Q : QuorumSet NId
  current_slot : Slot NId S
  externalized_slots : List (Slot NId S)
  validity_fn : V → Except E Unit
  combine_fn : List V → List V
  seen_msg_hashes : LruCache (Msg NId V)
  scp_timebase : Nat

def Node.new (M : SlotModel NId V E S) (id : NId) (q : QuorumSet NId)
    (validity_fn : V → Except E Unit) (combine_fn : List V → List V)
    (current_slot_index : Nat) : Node NId V E S :=
  { ID := id
  , Q := q
  , current_slot := Slot.new M id q current_slot_index validity_fn combine_fn
  , externalized_slots := []
  , validity_fn := validity_fn
  , combine_fn := combine_fn
  , seen_msg_hashes := ⟨[], LAST_SEEN_HISTORY_SIZE⟩
  , scp_timebase := 1000 }

def exceptIsOk : Except E Unit → Bool
  | .ok _ => true
  | .error _ => false

def errExternalizedInvalid : String := "Slot Externalized invalid values."

/-- The eviction loop of `Node::externalize`:
`while self.externalized_slots.len() > MAX_EXTERNALIZED_SLOTS
   { self.externalized_slots.remove(0); }`,
written with explicit fuel (the list length bounds the number of
iterations) so that it is structurally recursive. -/
def evictOldestGo : Nat → List α → List α
  | 0, l => l
  | fuel + 1, l =>
    if MAX_EXTERNALIZED_SLOTS < l.length then evictOldestGo fuel l.tail else l

def evictOldest (l : List α) : List α := evictOldestGo l.length l

/-- `Node::externalize` (`node.rs` lines 89-128): validate every value of the
externalized ballot, error if any is invalid; otherwise archive the current
slot (evicting the oldest beyond the history bound) and advance to a fresh
slot at `slot_index + 1`. -/
def Node.externalize (M : SlotModel NId V E S) (n : Node NId V E S) (slot_index : Nat)
    (payload : ExternalizePayload V) : Node NId V E S × Except String Unit :=
  if payload.C.X.any (fun value => !(exceptIsOk (n.validity_fn value))) then
    (n, .error errExternalizedInvalid)
  else
    ({ n with
        externalized_slots := evictOldest (n.externalized_slots ++ [n.current_slot])
      , current_slot := Slot.new M n.ID n.Q (slot_index + 1) n.validity_fn n.combine_fn }
    , .ok ())

/-- The common tail of `Node::nominate` and `Node::handle`: store the slot's
updated state, and on an `Externalize` emission run `Node::externalize`
(propagating its error) before returning the outbound message. -/
def Node.dispatchEmission (M : SlotModel NId V E S) (n : Node NId V E S)
    (stepped : S × Except String (Option (Msg NId V))) :
    Node NId V E S × Except String (Option (Msg NId V)) :=
  match stepped.2 with
  | .error e => ({ n with current_slot := { n.current_slot with st := stepped.1 } }, .error e)
  | .ok none => ({ n with current_slot := { n.current_slot with st := stepped.1 } }, .ok none)
  | .ok (some msg) =>
    match msg.topic with
    | .Externalize payload =>
      match Node.externalize M { n with current_slot := { n.current_slot with st := stepped.1 } }
          msg.slot_index payload with
      | (n2, .error e) => (n2, .error e)
      | (n2, .ok _) => (n2, .ok (some msg))
    | _ => ({ n with current_slot := { n.current_slot with st := stepped.1 } }, .ok (some msg))

/-- `Node::nominate` (`node.rs` lines 171-199): drop an empty value set, filter
out invalid values, drop the call when nothing valid remains, otherwise
propose the valid values to the current slot. -/
def Node.nominate (M : SlotModel NId V E S) (n : Node NId V E S) (values : List V) :
    Node NId V E S × Except String (Option (Msg NId V)) :=
  if values.isEmpty then (n, .ok none)
  else if (values.filter (fun value => exceptIsOk (n.validity_fn value))).isEmpty then
    (n, .ok none)
  else
    Node.dispatchEmission M n
      (M.proposeSt n.current_slot (values.filter (fun value => exceptIsOk (n.validity_fn value))))

/-- `Node::handle` (`node.rs` lines 204-265): drop messages from self and
messages for future slots, dedup by content digest through the LRU (`get`
refreshes recency; a miss is followed by `put`), then dispatch messages for
the current slot and silently drop messages for past slots. -/
def Node.handle [DecidableEq NId] [DecidableEq V] (M : SlotModel NId V E S)
    (n : Node NId V E S) (m : Msg NId V) :
    Node NId V E S × Except String (Option (Msg NId V)) :=
  if m.sender_id = n.ID then (n, .ok none)
  else if n.current_slot.slot_index < m.slot_index then (n, .ok none)
  else if Msg.digest m ∈ n.seen_msg_hashes.entries then
    ({ n with seen_msg_hashes := (n.seen_msg_hashes.get (Msg.digest m)).2 }, .ok none)
  else if m.slot_index = n.current_slot.slot_index then
    Node.dispatchEmission M { n with seen_msg_hashes := n.seen_msg_hashes.put (Msg.digest m) }
      (M.handleSt n.current_slot m)
  else
    ({ n with seen_msg_hashes := n.seen_msg_hashes.put (Msg.digest m) }, .ok none)

/-- `Node::get_externalized_values` (`node.rs` lines 268-286).  The two source
panic branches (an archived slot with no last message, or whose last message
is not an Externalize) are mapped to `none`; the invariants below show they
are unreachable from well-behaved histories. -/
def Node.get_externalized_values (M : SlotModel NId V E S) (n : Node NId V E S)
    (slot_index : Nat) : Option (List V) :=
  match n.externalized_slots.find? (fun slot => slot.slot_index == slot_index) with
  | some slot =>
    match M.lastMsgSent slot.st with
    | some msg =>
      match msg.topic with
      | .Externalize payload => some payload.C.X
      | _ => none
    | none => none
  | none => none

def Node.process_timeouts (M : SlotModel NId V E S) (n : Node NId V E S) :
    Node NId V E S × List (Msg NId V) :=
  let stepped := M.timeoutsSt n.current_slot
  ({ n with current_slot := { n.current_slot with st := stepped.1 } }, stepped.2)

def Node.current_slot_index (n : Node NId V E S) : Nat :=
  n.current_slot.slot_index

/-- `Node::reset_slot_index` (`node.rs` lines 304-313): discard the current
slot and construct a fresh one at the given index. -/
def Node.reset_slot_index (M : SlotModel NId V E S) (n : Node NId V E S)
    (slot_index : Nat) : Node NId V E S :=
  { n with current_slot := Slot.new M n.ID n.Q slot_index n.validity_fn n.combine_fn }

/-! ## Reachable node states

One inductive for the states reachable through the public operations exactly
as the source exposes them, and one for the restricted discipline in which
`reset_slot_index` only ever moves the node past its externalized history
(the amended claim C3). -/

inductive Reachable [DecidableEq NId] [DecidableEq V] (M : SlotModel NId V E S)
    (vf : V → Except E Unit) (cf : List V → List V) : Node NId V E S → Prop where
  | new (id : NId) (q : QuorumSet NId) (i : Nat) :
      Reachable M vf cf (Node.new M id q vf cf i)
  | nominate (n : Node NId V E S) (values : List V) :
      Reachable M vf cf n → Reachable M vf cf (Node.nominate M n values).1
  | handle (n : Node NId V E S) (m : Msg NId V) :
      Reachable M vf cf n → Reachable M vf cf (Node.handle M n m).1
  | timeouts (n : Node NId V E S) :
      Reachable M vf cf n → Reachable M vf cf (Node.process_timeouts M n).1
  | reset (n : Node NId V E S) (i : Nat) :
      Reachable M vf cf n → Reachable M vf cf (Node.reset_slot_index M n i)

inductive ReachableSafe [DecidableEq NId] [DecidableEq V] (M : SlotModel NId V E S)
    (vf : V → Except E Unit) (cf : List V → List V) : Node NId V E S → Prop where
  | new (id : NId) (q : QuorumSet NId) (i : Nat) :
      ReachableSafe M vf cf (Node.new M id q vf cf i)
  | nominate (n : Node NId V E S) (values : List V) :
      ReachableSafe M vf cf n → ReachableSafe M vf cf (Node.nominate M n values).1
  | handle (n : Node NId V E S) (m : Msg NId V) :
      ReachableSafe M vf cf n → ReachableSafe M vf cf (Node.handle M n m).1
  | timeouts (n : Node NId V E S) :
      ReachableSafe M vf cf n → ReachableSafe M vf cf (Node.process_timeouts M n).1
  | reset (n : Node NId V E S) (i : Nat) :
      (∀ sl ∈ n.externalized_slots, sl.slot_index < i) →
      ReachableSafe M vf cf n → ReachableSafe M vf cf (Node.reset_slot_index M n i)

/-- The Node invariants of spec §3: externalized slots strictly increasing in
slot index, all below the current slot's index, and each archived with an
Externalize as its last emitted message. -/
def NodeInvariant (M : SlotModel NId V E S) (n : Node NId V E S) : Prop :=
  n.externalized_slots.Pairwise (fun a b => a.slot_index < b.slot_index) ∧
  (∀ sl ∈ n.externalized_slots, sl.slot_index < n.current_slot.slot_index) ∧
  (∀ sl ∈ n.externalized_slots, ∃ msg payload,
    M.lastMsgSent sl.st = some msg ∧ msg.topic = Topic.Externalize payload)

/-! ## Result selection from `predicates.rs`

`MinMaxPredicate::get_highest_ballot` (`predicates.rs` lines 196-208) maps
each result to its `(min, max)` pair and takes `Iterator::max()`.  Rust's
`Ord` for `(u32, u32)` is lexicographic with the FIRST component (`min`)
compared first, and `max()` returns the last of several equal maxima.  Both
are embedded exactly. -/

def tupleCmp (a b : Nat × Nat) : Ordering :=
  match compare a.1 b.1 with
  | .eq => compare a.2 b.2
  | o => o

/-- `Iterator::max()` on `(u32, u32)`: fold keeping the later element unless
the accumulator is strictly greater. -/
def listMaxPair : List (Nat × Nat) → Option (Nat × Nat)
  | [] => none
  | x :: xs => some (xs.foldl (fun acc y => if tupleCmp acc y = .gt then acc else y) x)

def get_highest_ballot (results : List (α × (Nat × Nat))) : Option (Nat × Nat) :=
  listMaxPair (results.map (fun r => r.2))

/-- To compare with the spec's words for C8: "the counter range that is
numerically maximal by upper bound (max) first and then by lower bound
(min)" — i.e. lexicographic with the SECOND component compared first.  This
definition follows the spec, not the source. -/
def get_highest_ballot_specUpperFirst (results : List (α × (Nat × Nat))) :
    Option (Nat × Nat) :=
  match results.map (fun r => r.2) with
  | [] => none
  | x :: xs =>
    some (xs.foldl
      (fun acc y => if tupleCmp (acc.2, acc.1) (y.2, y.1) = .gt then acc else y) x)

/-- The lexicographic order (lower bound first) that Rust's `(u32, u32)` `Ord`
induces; used to state what `get_highest_ballot` actually maximizes. -/
def pairLexLe (a b : Nat × Nat) : Prop :=
  a.1 < b.1 ∨ (a.1 = b.1 ∧ a.2 ≤ b.2)

/-! ## The quorum-set test DSL (`test_utils.rs`)

`NodeID` is modelled by its responder-id string: `test_node_id(n)` builds the
ID deterministically from `n` (the Ed25519 key adds no distinguishing
information beyond `n`, so the string carries the identity).
`recover_test_node_index` re-parses the integer exactly as the source does:
take the responder id up to the first dot, drop the four characters of
"node", parse the digits. -/

def digitsVal (ds : List Char) : Nat :=
  ds.foldl (fun a c => a * 10 + (c.toNat - 48)) 0

def test_node_id (n : Nat) : String :=
  "node" ++ Nat.repr n ++ ".test.com:8443"

def recover_test_node_index (s : String) : Nat :=
  digitsVal ((s.toList.takeWhile (fun c => c ≠ '.')).drop 4)

/-- Modelled from the spec: the pest grammar file `quorum_set_parser.pest` is
not in the sources; the grammar is reconstructed from the DSL strings the
sources use: `quorum_set = "(" "[" threshold "]" ("," member)* ")"`,
`member = node-number | quorum_set`.  The tree walk matches
`test_quorum_set_from_string` in `test_utils.rs` (numbers become
`QuorumSetMember::Node (test_node_id n)`, nested parentheses become
`QuorumSetMember::InnerSet`).  Fuel makes the mutual recursion structural;
every recursive call consumes input, so `length + 1` fuel at the top level
never runs out. -/
def parseNatChars (cs : List Char) : Option (Nat × List Char) :=
  let ds := cs.takeWhile Char.isDigit
  if ds.isEmpty then none
  else some (digitsVal ds, cs.drop ds.length)

mutual

def parseQSet : Nat → List Char → Option (QuorumSet String × List Char)
  | 0, _ => none
  | fuel + 1, cs =>
    match cs with
    | '(' :: '[' :: rest =>
      match parseNatChars rest with
      | some (t, ']' :: rest2) =>
        match parseMembers fuel rest2 with
        | some (ms, rest3) => some (QuorumSet.mk t ms, rest3)
        | none => none
      | _ => none
    | _ => none

def parseMembers : Nat → List Char → Option (List (QuorumSetMember String) × List Char)
  | 0, _ => none
  | fuel + 1, cs =>
    match cs with
    | ')' :: rest => some ([], rest)
    | ',' :: '(' :: rest =>
      match parseQSet fuel ('(' :: rest) with
      | some (qs, rest2) =>
        match parseMembers fuel rest2 with
        | some (ms, rest3) => some (QuorumSetMember.InnerSet qs :: ms, rest3)
        | none => none
      | none => none
    | ',' :: rest =>
      match parseNatChars rest with
      | some (nv, rest2) =>
        match parseMembers fuel rest2 with
        | some (ms, rest3) => some (QuorumSetMember.Node (test_node_id nv) :: ms, rest3)
        | none => none
      | none => none
    | _ => none

end

def test_quorum_set_from_string (s : String) : Option (QuorumSet String) :=
  match parseQSet (s.length + 1) s.toList with
  | some (qs, []) => some qs
  | _ => none

mutual

def test_quorum_set_to_string : QuorumSet String → String
  | .mk t ms => "([" ++ Nat.repr t ++ "]" ++ membersToString ms ++ ")"

def membersToString : List (QuorumSetMember String) → String
  | [] => ""
  | m :: ms => memberToString m ++ membersToString ms

def memberToString : QuorumSetMember String → String
  | .Node id => "," ++ Nat.repr (recover_test_node_index id)
  | .InnerSet qs => "," ++ test_quorum_set_to_string qs

end

/-! ## A concrete slot-model instance

A small executable instance of the slot interface used for witnesses and
counterexamples: its slot answers every peer message for its slot with an
`Externalize` emission (recorded as last message sent, carrying the slot's own
index), which is how a slot whose single-peer quorum set is already satisfied
behaves at the node boundary.  It satisfies both spec obligations
(`EmitsOwnIndex`, `RecordsEmission`), proved below. -/

def demoQS : QuorumSet Nat := QuorumSet.mk 1 [QuorumSetMember.Node 1]

def demoValidity : Nat → Except Unit Unit := fun _ => .ok ()

def demoCombine : List Nat → List Nat := fun values => values

def demoExtMsg (sl : Slot Nat (Option (Msg Nat Nat))) : Msg Nat Nat :=
  { sender_id := sl.ID
  , sender_quorum_set := sl.Q
  , slot_index := sl.slot_index
  , topic := Topic.Externalize { C := { N := 1, X := [7] }, HN := 1 } }

def demoModel : SlotModel Nat Nat Unit (Option (Msg Nat Nat)) :=
  { initSt := fun _ _ _ _ _ => none
  , handleSt := fun sl _ => (some (demoExtMsg sl), .ok (some (demoExtMsg sl)))
  , proposeSt := fun sl _ => (sl.st, .ok none)
  , timeoutsSt := fun sl => (sl.st, [])
  , lastMsgSent := fun st => st }

def demoPeerMsg (i : Nat) : Msg Nat Nat :=
  { sender_id := 1
  , sender_quorum_set := demoQS
  , slot_index := i
  , topic := Topic.Nominate { X := [], Y := [] } }

/-- Drive a fresh node through one externalization per slot: the node starts
at slot 1 and handles one peer message for each successive slot. -/
def demoTrace : Nat → Node Nat Nat Unit (Option (Msg Nat Nat))
  | 0 => Node.new demoModel 0 demoQS demoValidity demoCombine 1
  | k + 1 => (Node.handle demoModel (demoTrace k) (demoPeerMsg (k + 1))).1

/-- After ten externalizations (history full, slots 1..10), reset the node
back to slot 0 — exactly what `reset_slot_index` permits. -/
def demoReset : Node Nat Nat Unit (Option (Msg Nat Nat)) :=
  Node.reset_slot_index demoModel (demoTrace 10) 0

/-- ... and externalize slot 0 on the reset node, overflowing the history. -/
def demoFinal : Node Nat Nat Unit (Option (Msg Nat Nat)) :=
  (Node.handle demoModel demoReset (demoPeerMsg 0)).1

theorem demoModel_emitsOwnIndex : demoModel.EmitsOwnIndex := by
  constructor
  · intro sl m out h
    simp only [demoModel] at h
    cases h
    rfl
  · intro sl vs out h
    simp only [demoModel] at h
    cases h

theorem demoModel_recordsEmission : demoModel.RecordsEmission := by
  constructor
  · intro sl m out h
    simp only [demoModel] at h ⊢
    cases h
    rfl
  · intro sl vs out h
    simp only [demoModel] at h
    cases h

theorem demoTrace_reachable (k : Nat) :
    Reachable demoModel demoValidity demoCombine (demoTrace k) := by
  induction k with
  | zero => exact Reachable.new 0 demoQS 1
  | succ k ih => exact Reachable.handle (demoTrace k) (demoPeerMsg (k + 1)) ih

theorem demoReset_reachable :
    Reachable demoModel demoValidity demoCombine demoReset :=
  Reachable.reset (demoTrace 10) 0 (demoTrace_reachable 10)

theorem demoFinal_reachable :
    Reachable demoModel demoValidity demoCombine demoFinal :=
  Reachable.handle demoReset (demoPeerMsg 0) demoReset_reachable

/-! ## Helper lemmas about eviction and the LRU cache -/

theorem evictOldestGo_suffix : ∀ (fuel : Nat) (l : List α), evictOldestGo fuel l <:+ l
  | 0, l => List.suffix_refl l
  | fuel + 1, l => by
    rw [evictOldestGo]
    split
    · exact (evictOldestGo_suffix fuel l.tail).trans (List.tail_suffix l)
    · exact List.suffix_refl l

theorem evictOldest_suffix (l : List α) : evictOldest l <:+ l :=
  evictOldestGo_suffix l.length l

theorem evictOldestGo_length :
    ∀ (fuel : Nat) (l : List α), l.length ≤ fuel + MAX_EXTERNALIZED_SLOTS →
      (evictOldestGo fuel l).length ≤ MAX_EXTERNALIZED_SLOTS
  | 0, l, h => by simpa [evictOldestGo] using h
  | fuel + 1, l, h => by
    rw [evictOldestGo]
    split
    · exact evictOldestGo_length fuel l.tail (by simp [List.length_tail]; omega)
    · omega

theorem evictOldest_length (l : List α) :
    (evictOldest l).length ≤ MAX_EXTERNALIZED_SLOTS :=
  evictOldestGo_length l.length l (by omega)

theorem evictOldestGo_of_le (fuel : Nat) (l : List α)
    (h : l.length ≤ MAX_EXTERNALIZED_SLOTS) : evictOldestGo fuel l = l := by
  cases fuel with
  | zero => rfl
  | succ fuel =>
    rw [evictOldestGo]
    split
    · omega
    · rfl

theorem evictOldest_of_le (l : List α) (h : l.length ≤ MAX_EXTERNALIZED_SLOTS) :
    evictOldest l = l :=
  evictOldestGo_of_le l.length l h

theorem evictOldest_full (l : List α) (x : α) (h : l.length = MAX_EXTERNALIZED_SLOTS) :
    evictOldest (l ++ [x]) = l.tail ++ [x] := by
  have hM : MAX_EXTERNALIZED_SLOTS = 10 := rfl
  have hne : l ≠ [] := by intro he; rw [he] at h; simp at h; omega
  have hlen : (l ++ [x]).length = MAX_EXTERNALIZED_SLOTS + 1 := by simp [h]
  have htail : (l ++ [x]).tail = l.tail ++ [x] := by
    cases l with
    | nil => exact absurd rfl hne
    | cons a as => simp
  unfold evictOldest
  rw [hlen, evictOldestGo]
  split
  · rw [htail]
    refine evictOldestGo_of_le _ _ ?_
    simp [List.length_tail]
    omega
  · omega

theorem LruCache.get_head [DecidableEq K] (c : LruCache K) (k : K) (t : List K)
    (h : c.entries = k :: t) : c.get k = (true, c) := by
  obtain ⟨e, cap⟩ := c
  simp only at h
  subst h
  simp [LruCache.get]

theorem LruCache.get_found [DecidableEq K] (c : LruCache K) (k : K)
    (h : k ∈ c.entries) : c.get k = (true, ⟨k :: c.entries.erase k, c.capacity⟩) := by
  simp [LruCache.get, h]

theorem LruCache.get_miss [DecidableEq K] (c : LruCache K) (k : K)
    (h : k ∉ c.entries) : c.get k = (false, c) := by
  simp [LruCache.get, h]

theorem LruCache.put_head [DecidableEq K] (c : LruCache K) (k : K)
    (h : 0 < c.capacity) :
    (c.put k).entries = k :: (c.entries.erase k).take (c.capacity - 1) := by
  obtain ⟨e, cap⟩ := c
  simp only at h
  cases cap with
  | zero => omega
  | succ m => simp [LruCache.put]

theorem LruCache.put_capacity [DecidableEq K] (c : LruCache K) (k : K) :
    (c.put k).capacity = c.capacity := rfl

/-! ## Frame lemmas for the node operations -/

theorem Node.externalize_error_eq (M : SlotModel NId V E S) (n : Node NId V E S)
    (i : Nat) (p : ExternalizePayload V) (e : String)
    (h : (Node.externalize M n i p).2 = .error e) : (Node.externalize M n i p).1 = n := by
  by_cases hc : (p.C.X.any fun value => !exceptIsOk (n.validity_fn value)) = true
  · simp [Node.externalize, hc]
  · simp [Node.externalize, hc] at h

theorem Node.externalize_ok_eq (M : SlotModel NId V E S) (n : Node NId V E S)
    (i : Nat) (p : ExternalizePayload V) (u : Unit)
    (h : (Node.externalize M n i p).2 = .ok u) :
    (Node.externalize M n i p).1 =
      { n with
          externalized_slots := evictOldest (n.externalized_slots ++ [n.current_slot])
        , current_slot := Slot.new M n.ID n.Q (i + 1) n.validity_fn n.combine_fn } := by
  by_cases hc : (p.C.X.any fun value => !exceptIsOk (n.validity_fn value)) = true
  · simp [Node.externalize, hc] at h
  · simp [Node.externalize, hc]

theorem Node.externalize_frame (M : SlotModel NId V E S) (n : Node NId V E S)
    (i : Nat) (p : ExternalizePayload V) :
    (Node.externalize M n i p).1.ID = n.ID ∧
    (Node.externalize M n i p).1.Q = n.Q ∧
    (Node.externalize M n i p).1.seen_msg_hashes = n.seen_msg_hashes ∧
    (Node.externalize M n i p).1.validity_fn = n.validity_fn ∧
    (Node.externalize M n i p).1.combine_fn = n.combine_fn := by
  unfold Node.externalize
  split
  · exact ⟨rfl, rfl, rfl, rfl, rfl⟩
  · exact ⟨rfl, rfl, rfl, rfl, rfl⟩

theorem Node.dispatchEmission_frame (M : SlotModel NId V E S) (n : Node NId V E S)
    (stepped : S × Except String (Option (Msg NId V))) :
    (Node.dispatchEmission M n stepped).1.ID = n.ID ∧
    (Node.dispatchEmission M n stepped).1.seen_msg_hashes = n.seen_msg_hashes := by
  obtain ⟨s2, r⟩ := stepped
  cases r with
  | error e => exact ⟨rfl, rfl⟩
  | ok o =>
    cases o with
    | none => exact ⟨rfl, rfl⟩
    | some msg =>
      obtain ⟨sid, sqs, sidx, tp⟩ := msg
      cases tp with
      | Nominate p => exact ⟨rfl, rfl⟩
      | NominatePrepare np pp => exact ⟨rfl, rfl⟩
      | Prepare p => exact ⟨rfl, rfl⟩
      | Commit p => exact ⟨rfl, rfl⟩
      | Externalize p =>
        rcases hx : Node.externalize M
            { n with current_slot := { n.current_slot with st := s2 } } sidx p with ⟨n2, r2⟩
        have hfr := Node.externalize_frame M
            { n with current_slot := { n.current_slot with st := s2 } } sidx p
        rw [hx] at hfr
        simp only [Node.dispatchEmission]
        rw [hx]
        cases r2 with
        | error e => exact ⟨hfr.1, hfr.2.2.1⟩
        | ok u => exact ⟨hfr.1, hfr.2.2.1⟩

/-! ## Invariant preservation -/

theorem NodeInvariant.dispatch (M : SlotModel NId V E S) (n : Node NId V E S)
    (stepped : S × Except String (Option (Msg NId V)))
    (hidx : ∀ out, stepped.2 = .ok (some out) → out.slot_index = n.current_slot.slot_index)
    (hrec : ∀ out, stepped.2 = .ok (some out) → M.lastMsgSent stepped.1 = some out)
    (hinv : NodeInvariant M n) :
    NodeInvariant M (Node.dispatchEmission M n stepped).1 := by
  obtain ⟨h1, h2, h3⟩ := hinv
  obtain ⟨s2, r⟩ := stepped
  cases r with
  | error e => exact ⟨h1, h2, h3⟩
  | ok o =>
    cases o with
    | none => exact ⟨h1, h2, h3⟩
    | some msg =>
      have hidx2 : msg.slot_index = n.current_slot.slot_index := hidx msg rfl
      have hrec2 : M.lastMsgSent s2 = some msg := hrec msg rfl
      obtain ⟨sid, sqs, sidx, tp⟩ := msg
      simp only at hidx2
      cases tp with
      | Nominate p => exact ⟨h1, h2, h3⟩
      | NominatePrepare np pp => exact ⟨h1, h2, h3⟩
      | Prepare p => exact ⟨h1, h2, h3⟩
      | Commit p => exact ⟨h1, h2, h3⟩
      | Externalize p =>
        simp only [Node.dispatchEmission]
        rcases hx : Node.externalize M
            { n with current_slot := { n.current_slot with st := s2 } } sidx p with ⟨n2, r2⟩
        cases r2 with
        | error e =>
          have he := Node.externalize_error_eq M
            { n with current_slot := { n.current_slot with st := s2 } } sidx p e (by rw [hx])
          rw [hx] at he
          simp only at he
          rw [he]
          exact ⟨h1, h2, h3⟩
        | ok u =>
          have he := Node.externalize_ok_eq M
            { n with current_slot := { n.current_slot with st := s2 } } sidx p u (by rw [hx])
          rw [hx] at he
          simp only at he
          rw [he]
          refine ⟨?_, ?_, ?_⟩
          · refine List.Pairwise.sublist (evictOldest_suffix _).sublist ?_
            rw [List.pairwise_append]
            refine ⟨h1, List.pairwise_singleton _ _, ?_⟩
            intro a ha b hb
            simp only [List.mem_singleton] at hb
            subst hb
            exact h2 a ha
          · intro sl hsl
            have hmem := (evictOldest_suffix _).sublist.subset hsl
            rw [List.mem_append] at hmem
            show sl.slot_index < sidx + 1
            rcases hmem with hin | hin
            · have := h2 sl hin
              omega
            · simp only [List.mem_singleton] at hin
              subst hin
              show n.current_slot.slot_index < sidx + 1
              omega
          · intro sl hsl
            have hmem := (evictOldest_suffix _).sublist.subset hsl
            rw [List.mem_append] at hmem
            rcases hmem with hin | hin
            · exact h3 sl hin
            · simp only [List.mem_singleton] at hin
              subst hin
              exact ⟨⟨sid, sqs, sidx, Topic.Externalize p⟩, p, hrec2, rfl⟩

theorem NodeInvariant.handleOp [DecidableEq NId] [DecidableEq V] (M : SlotModel NId V E S)
    (hi : M.EmitsOwnIndex) (hr : M.RecordsEmission)
    (n : Node NId V E S) (m : Msg NId V) (hinv : NodeInvariant M n) :
    NodeInvariant M (Node.handle M n m).1 := by
  unfold Node.handle
  split
  · exact hinv
  · split
    · exact hinv
    · split
      · exact hinv
      · split
        · exact NodeInvariant.dispatch M _ _
            (fun out h => hi.1 _ _ out h) (fun out h => hr.1 _ _ out h) hinv
        · exact hinv


theorem NodeInvariant.nominateOp (M : SlotModel NId V E S)
    (hi : M.EmitsOwnIndex) (hr : M.RecordsEmission)
    (n : Node NId V E S) (values : List V) (hinv : NodeInvariant M n) :
    NodeInvariant M (Node.nominate M n values).1 := by
  unfold Node.nominate
  split
  · exact hinv
  · split
    · exact hinv
    · exact NodeInvariant.dispatch M _ _
        (fun out h => hi.2 _ _ out h) (fun out h => hr.2 _ _ out h) hinv

theorem NodeInvariant.timeoutsOp (M : SlotModel NId V E S)
    (n : Node NId V E S) (hinv : NodeInvariant M n) :
    NodeInvariant M (Node.process_timeouts M n).1 :=
  hinv

theorem NodeInvariant.resetOp (M : SlotModel NId V E S)
    (n : Node NId V E S) (i : Nat)
    (hgt : ∀ sl ∈ n.externalized_slots, sl.slot_index < i) (hinv : NodeInvariant M n) :
    NodeInvariant M (Node.reset_slot_index M n i) :=
  ⟨hinv.1, hgt, hinv.2.2⟩

theorem NodeInvariant.newOp (M : SlotModel NId V E S) (id : NId) (q : QuorumSet NId)
    (vf : V → Except E Unit) (cf : List V → List V) (i : Nat) :
    NodeInvariant M (Node.new M id q vf cf i) :=
  ⟨List.Pairwise.nil
  , fun sl h => absurd h (List.not_mem_nil sl)
  , fun sl h => absurd h (List.not_mem_nil sl)⟩

/-- The condition under which `get_externalized_values` cannot hit the
source's panic branches: every slot that `find?` can return has an
Externalize recorded as its last emitted message. -/
def NoPanicGet (M : SlotModel NId V E S) (n : Node NId V E S) : Prop :=
  ∀ i sl, n.externalized_slots.find? (fun slot => slot.slot_index == i) = some sl →
    ∃ msg payload, M.lastMsgSent sl.st = some msg ∧ msg.topic = Topic.Externalize payload

theorem nodeInvariant_noPanicGet (M : SlotModel NId V E S) (n : Node NId V E S)
    (hinv : NodeInvariant M n) : NoPanicGet M n := by
  intro i sl hf
  exact hinv.2.2 sl (List.mem_of_find?_eq_some hf)

theorem demoTrace_reachableSafe (k : Nat) :
    ReachableSafe demoModel demoValidity demoCombine (demoTrace k) := by
  induction k with
  | zero => exact ReachableSafe.new 0 demoQS 1
  | succ k ih => exact ReachableSafe.handle (demoTrace k) (demoPeerMsg (k + 1)) ih

/-- C3 (amended): for a slot machine that emits messages carrying its own slot
index and records every emission as its last message sent, every node state
reachable through new, nominate, handle and process_timeouts — with
reset_slot_index restricted to indices above the whole externalized history —
satisfies the invariants: externalized_slots strictly increasing in slot
index, every externalized index below the current slot's, each externalized
slot's last emitted message an Externalize, and hence
get_externalized_values can never hit its panic branches. -/
theorem c3_invariants_safeReset [DecidableEq NId] [DecidableEq V]
    (M : SlotModel NId V E S) (vf : V → Except E Unit) (cf : List V → List V)
    (hi : M.EmitsOwnIndex) (hr : M.RecordsEmission)
    (n : Node NId V E S) (h : ReachableSafe M vf cf n) :
    NodeInvariant M n ∧ NoPanicGet M n := by
  have hinv : NodeInvariant M n := by
    induction h with
    | new id q i => exact NodeInvariant.newOp M id q vf cf i
    | nominate n values hn ih => exact NodeInvariant.nominateOp M hi hr n values ih
    | handle n m hn ih => exact NodeInvariant.handleOp M hi hr n m ih
    | timeouts n hn ih => exact NodeInvariant.timeoutsOp M n ih
    | reset n i hgt hn ih => exact NodeInvariant.resetOp M n i hgt ih
  exact ⟨hinv, nodeInvariant_noPanicGet M n hinv⟩

/-- C3: witness for the amended invariant theorem, at a node that has
externalized ten slots. -/
theorem c3_invariants_safeReset_witness :
    NodeInvariant demoModel (demoTrace 10) ∧ NoPanicGet demoModel (demoTrace 10) :=
  c3_invariants_safeReset demoModel demoValidity demoCombine
    demoModel_emitsOwnIndex demoModel_recordsEmission
    (demoTrace 10) (demoTrace_reachableSafe 10)

/-- C3: counterexample to the claim as stated.  The slot model satisfies both
spec obligations, the state `demoReset` is reachable through the public
operations (ten handled externalizations followed by `reset_slot_index 0`),
yet its current slot index (0) is not greater than the externalized indices
1..10 — `reset_slot_index` places the current slot below the history. -/
theorem c3_counterexample :
    demoModel.EmitsOwnIndex ∧ demoModel.RecordsEmission ∧
    Reachable demoModel demoValidity demoCombine demoReset ∧
    ¬ (∀ sl ∈ demoReset.externalized_slots,
        sl.slot_index < demoReset.current_slot.slot_index) := by
  refine ⟨demoModel_emitsOwnIndex, demoModel_recordsEmission, demoReset_reachable, ?_⟩
  decide

/-! ## C4: the history bound and the eviction policy -/

theorem extLen_dispatch (M : SlotModel NId V E S) (n : Node NId V E S)
    (stepped : S × Except String (Option (Msg NId V)))
    (h : n.externalized_slots.length ≤ MAX_EXTERNALIZED_SLOTS) :
    (Node.dispatchEmission M n stepped).1.externalized_slots.length ≤
      MAX_EXTERNALIZED_SLOTS := by
  obtain ⟨s2, r⟩ := stepped
  cases r with
  | error e => exact h
  | ok o =>
    cases o with
    | none => exact h
    | some msg =>
      obtain ⟨sid, sqs, sidx, tp⟩ := msg
      cases tp with
      | Nominate p => exact h
      | NominatePrepare np pp => exact h
      | Prepare p => exact h
      | Commit p => exact h
      | Externalize p =>
        simp only [Node.dispatchEmission]
        rcases hx : Node.externalize M
            { n with current_slot := { n.current_slot with st := s2 } } sidx p with ⟨n2, r2⟩
        cases r2 with
        | error e =>
          have he := Node.externalize_error_eq M
            { n with current_slot := { n.current_slot with st := s2 } } sidx p e (by rw [hx])
          rw [hx] at he
          simp only at he
          rw [he]
          exact h
        | ok u =>
          have he := Node.externalize_ok_eq M
            { n with current_slot := { n.current_slot with st := s2 } } sidx p u (by rw [hx])
          rw [hx] at he
          simp only at he
          rw [he]
          exact evictOldest_length _

theorem extLen_handle [DecidableEq NId] [DecidableEq V] (M : SlotModel NId V E S)
    (n : Node NId V E S) (m : Msg NId V)
    (h : n.externalized_slots.length ≤ MAX_EXTERNALIZED_SLOTS) :
    (Node.handle M n m).1.externalized_slots.length ≤ MAX_EXTERNALIZED_SLOTS := by
  unfold Node.handle
  split
  · exact h
  · split
    · exact h
    · split
      · exact h
      · split
        · exact extLen_dispatch M _ _ h
        · exact h

theorem extLen_nominate (M : SlotModel NId V E S) (n : Node NId V E S) (values : List V)
    (h : n.externalized_slots.length ≤ MAX_EXTERNALIZED_SLOTS) :
    (Node.nominate M n values).1.externalized_slots.length ≤ MAX_EXTERNALIZED_SLOTS := by
  unfold Node.nominate
  split
  · exact h
  · split
    · exact h
    · exact extLen_dispatch M _ _ h

/-- C4 (amended): after every public operation the externalized history holds
at most `MAX_EXTERNALIZED_SLOTS` (10) slots, and an externalization on a full
history evicts the front (earliest-appended) slot — which is the lowest-index
slot only while the history is sorted; the counterexample shows the two can
differ after a backwards `reset_slot_index`. -/
theorem c4_history_bound [DecidableEq NId] [DecidableEq V]
    (M : SlotModel NId V E S) (vf : V → Except E Unit) (cf : List V → List V)
    (n : Node NId V E S) (h : Reachable M vf cf n) :
    n.externalized_slots.length ≤ MAX_EXTERNALIZED_SLOTS ∧
    (∀ i p u, n.externalized_slots.length = MAX_EXTERNALIZED_SLOTS →
      (Node.externalize M n i p).2 = .ok u →
      (Node.externalize M n i p).1.externalized_slots =
        n.externalized_slots.tail ++ [n.current_slot]) := by
  constructor
  · induction h with
    | new id q i => simp [Node.new, MAX_EXTERNALIZED_SLOTS]
    | nominate n values hn ih => exact extLen_nominate M n values ih
    | handle n m hn ih => exact extLen_handle M n m ih
    | timeouts n hn ih => exact ih
    | reset n i hn ih => exact ih
  · intro i p u hfull hok
    rw [Node.externalize_ok_eq M n i p u hok]
    exact evictOldest_full _ _ hfull

/-- C4: witness for the amended theorem — the bound holds at the node that
externalized eleven times, and the eviction equation fires on the full
history of `demoReset`. -/
theorem c4_history_bound_witness :
    demoFinal.externalized_slots.length ≤ MAX_EXTERNALIZED_SLOTS ∧
    (Node.externalize demoModel demoReset 0
        { C := { N := 1, X := [7] }, HN := 1 }).1.externalized_slots =
      demoReset.externalized_slots.tail ++ [demoReset.current_slot] :=
  ⟨(c4_history_bound demoModel demoValidity demoCombine demoFinal demoFinal_reachable).1
  , (c4_history_bound demoModel demoValidity demoCombine demoReset demoReset_reachable).2
      0 { C := { N := 1, X := [7] }, HN := 1 } () (by decide) rfl⟩

/-- C4: counterexample to "the oldest (lowest-index) externalized slot is
evicted": after ten externalizations (history indices 1..10), a reset to
slot 0 and an eleventh externalization, the evicted slot is the
earliest-appended one (index 1), while the lowest-index slot (index 0) is
still retained. -/
theorem c4_counterexample :
    Reachable demoModel demoValidity demoCombine demoFinal ∧
    demoReset.externalized_slots.map (fun sl => sl.slot_index) =
      [1, 2, 3, 4, 5, 6, 7, 8, 9, 10] ∧
    demoFinal.externalized_slots.map (fun sl => sl.slot_index) =
      [2, 3, 4, 5, 6, 7, 8, 9, 10, 0] ∧
    (∃ sl ∈ demoFinal.externalized_slots, sl.slot_index = 0) ∧
    ¬ (∃ sl ∈ demoFinal.externalized_slots, sl.slot_index = 1) := by
  refine ⟨demoFinal_reachable, ?_, ?_, ?_, ?_⟩ <;> decide

/-! ## Branch equations for `Node::handle` -/

theorem Node.handle_self [DecidableEq NId] [DecidableEq V] (M : SlotModel NId V E S)
    (n : Node NId V E S) (m : Msg NId V) (h : m.sender_id = n.ID) :
    Node.handle M n m = (n, .ok none) := by
  unfold Node.handle
  rw [if_pos h]

theorem Node.handle_future [DecidableEq NId] [DecidableEq V] (M : SlotModel NId V E S)
    (n : Node NId V E S) (m : Msg NId V) (h1 : ¬ m.sender_id = n.ID)
    (h2 : n.current_slot.slot_index < m.slot_index) :
    Node.handle M n m = (n, .ok none) := by
  unfold Node.handle
  rw [if_neg h1, if_pos h2]

theorem Node.handle_dup [DecidableEq NId] [DecidableEq V] (M : SlotModel NId V E S)
    (n : Node NId V E S) (m : Msg NId V) (h1 : ¬ m.sender_id = n.ID)
    (h2 : ¬ n.current_slot.slot_index < m.slot_index)
    (h3 : Msg.digest m ∈ n.seen_msg_hashes.entries) :
    Node.handle M n m =
      ({ n with seen_msg_hashes := (n.seen_msg_hashes.get (Msg.digest m)).2 }, .ok none) := by
  unfold Node.handle
  rw [if_neg h1, if_neg h2, if_pos h3]

theorem Node.handle_current [DecidableEq NId] [DecidableEq V] (M : SlotModel NId V E S)
    (n : Node NId V E S) (m : Msg NId V) (h1 : ¬ m.sender_id = n.ID)
    (h2 : ¬ n.current_slot.slot_index < m.slot_index)
    (h3 : ¬ Msg.digest m ∈ n.seen_msg_hashes.entries)
    (h4 : m.slot_index = n.current_slot.slot_index) :
    Node.handle M n m =
      Node.dispatchEmission M
        { n with seen_msg_hashes := n.seen_msg_hashes.put (Msg.digest m) }
        (M.handleSt n.current_slot m) := by
  unfold Node.handle
  rw [if_neg h1, if_neg h2, if_neg h3, if_pos h4]

theorem Node.handle_past [DecidableEq NId] [DecidableEq V] (M : SlotModel NId V E S)
    (n : Node NId V E S) (m : Msg NId V) (h1 : ¬ m.sender_id = n.ID)
    (h2 : ¬ n.current_slot.slot_index < m.slot_index)
    (h3 : ¬ Msg.digest m ∈ n.seen_msg_hashes.entries)
    (h4 : ¬ m.slot_index = n.current_slot.slot_index) :
    Node.handle M n m =
      ({ n with seen_msg_hashes := n.seen_msg_hashes.put (Msg.digest m) }, .ok none) := by
  unfold Node.handle
  rw [if_neg h1, if_neg h2, if_neg h3, if_neg h4]

/-- C2 (amended): a second identical `handle(m)` immediately after a first
call that returned Ok returns Ok(None), emits nothing and leaves the node
exactly as the first call left it; moreover, whenever the first call passed
the self-sender and future-slot checks, this is because m's digest is then
in `seen_msg_hashes`.  (For messages rejected by those checks the second call
is rejected by the same checks, before the LRU is consulted — the original
claim's "because the digest is found" does not hold there, see the
counterexample.)  The positive-capacity hypothesis holds for every
constructed node (`LAST_SEEN_HISTORY_SIZE = 1000`). -/
theorem c2_handle_idempotent [DecidableEq NId] [DecidableEq V]
    (M : SlotModel NId V E S) (n : Node NId V E S) (m : Msg NId V)
    (hcap : 0 < n.seen_msg_hashes.capacity)
    (r : Option (Msg NId V)) (hok : (Node.handle M n m).2 = .ok r) :
    Node.handle M (Node.handle M n m).1 m = ((Node.handle M n m).1, .ok none) ∧
    (¬ m.sender_id = n.ID → m.slot_index ≤ n.current_slot.slot_index →
      Msg.digest m ∈ (Node.handle M n m).1.seen_msg_hashes.entries) := by
  by_cases h1 : m.sender_id = n.ID
  · refine ⟨?_, fun hc _ => absurd h1 hc⟩
    rw [Node.handle_self M n m h1]
    exact Node.handle_self M n m h1
  · by_cases h2 : n.current_slot.slot_index < m.slot_index
    · refine ⟨?_, fun _ hc => absurd h2 (not_lt.mpr hc)⟩
      rw [Node.handle_future M n m h1 h2]
      exact Node.handle_future M n m h1 h2
    · by_cases h3 : Msg.digest m ∈ n.seen_msg_hashes.entries
      · -- the first call found the digest; it moved it to the front
        have hget := LruCache.get_found n.seen_msg_hashes (Msg.digest m) h3
        have hd := Node.handle_dup M n m h1 h2 h3
        rw [hget] at hd
        rw [hd]
        have hmem : Msg.digest m ∈
            (⟨Msg.digest m :: n.seen_msg_hashes.entries.erase (Msg.digest m),
              n.seen_msg_hashes.capacity⟩ : LruCache (Msg NId V)).entries :=
          List.mem_cons_self _ _
        refine ⟨?_, fun _ _ => hmem⟩
        have hd2 := Node.handle_dup M
          { n with seen_msg_hashes :=
              ⟨Msg.digest m :: n.seen_msg_hashes.entries.erase (Msg.digest m),
                n.seen_msg_hashes.capacity⟩ } m h1 h2 hmem
        rw [LruCache.get_head _ _ _ rfl] at hd2
        exact hd2
      · -- the first call put the digest at the front of the cache
        have hput := LruCache.put_head n.seen_msg_hashes (Msg.digest m) hcap
        by_cases h4 : m.slot_index = n.current_slot.slot_index
        · -- first call dispatched to the slot
          have hc := Node.handle_current M n m h1 h2 h3 h4
          have hframe := Node.dispatchEmission_frame M
            { n with seen_msg_hashes := n.seen_msg_hashes.put (Msg.digest m) }
            (M.handleSt n.current_slot m)
          rw [hc]
          have hseen : (Node.dispatchEmission M
              { n with seen_msg_hashes := n.seen_msg_hashes.put (Msg.digest m) }
              (M.handleSt n.current_slot m)).1.seen_msg_hashes.entries =
              Msg.digest m ::
                (n.seen_msg_hashes.entries.erase (Msg.digest m)).take
                  (n.seen_msg_hashes.capacity - 1) := by
            rw [hframe.2]
            exact hput
          have hmem : Msg.digest m ∈ (Node.dispatchEmission M
              { n with seen_msg_hashes := n.seen_msg_hashes.put (Msg.digest m) }
              (M.handleSt n.current_slot m)).1.seen_msg_hashes.entries := by
            rw [hseen]
            exact List.mem_cons_self _ _
          refine ⟨?_, fun _ _ => hmem⟩
          by_cases h5 : (Node.dispatchEmission M
              { n with seen_msg_hashes := n.seen_msg_hashes.put (Msg.digest m) }
              (M.handleSt n.current_slot m)).1.current_slot.slot_index < m.slot_index
          · exact Node.handle_future M _ m (by rw [hframe.1]; exact h1) h5
          · have hd2 := Node.handle_dup M _ m (by rw [hframe.1]; exact h1) h5 hmem
            rw [LruCache.get_head _ _ _ hseen] at hd2
            exact hd2
        · -- first call recorded the digest for a past slot
          have hp := Node.handle_past M n m h1 h2 h3 h4
          rw [hp]
          have hmem : Msg.digest m ∈
              (n.seen_msg_hashes.put (Msg.digest m)).entries := by
            rw [hput]
            exact List.mem_cons_self _ _
          refine ⟨?_, fun _ _ => hmem⟩
          have hd2 := Node.handle_dup M
            { n with seen_msg_hashes := n.seen_msg_hashes.put (Msg.digest m) } m h1 h2 hmem
          rw [LruCache.get_head _ _ _ hput] at hd2
          exact hd2

/-- C2: witness.  A fresh node handles a peer message for its current slot
(first call Ok with an outbound Externalize), and the theorem yields the
idempotent second call and the digest's presence in the cache. -/
theorem c2_handle_idempotent_witness :
    Node.handle demoModel
        (Node.handle demoModel (demoTrace 0) (demoPeerMsg 1)).1 (demoPeerMsg 1) =
      ((Node.handle demoModel (demoTrace 0) (demoPeerMsg 1)).1, .ok none) ∧
    (¬ (demoPeerMsg 1).sender_id = (demoTrace 0).ID →
      (demoPeerMsg 1).slot_index ≤ (demoTrace 0).current_slot.slot_index →
      Msg.digest (demoPeerMsg 1) ∈
        (Node.handle demoModel (demoTrace 0) (demoPeerMsg 1)).1.seen_msg_hashes.entries) :=
  c2_handle_idempotent demoModel (demoTrace 0) (demoPeerMsg 1) (by decide)
    (some (demoExtMsg (demoTrace 0).current_slot)) rfl

/-- C2: counterexample to the claim as stated.  A message whose sender is the
local node: the first `handle` returns Ok(None), but for the "because" clause
of the claim the digest is NOT in `seen_msg_hashes` after the first call —
the rejection happens before the LRU is consulted. -/
theorem c2_counterexample :
    (Node.handle demoModel (demoTrace 0)
      { sender_id := 0, sender_quorum_set := demoQS, slot_index := 1
      , topic := Topic.Nominate { X := [], Y := [] } }).2 = .ok none ∧
    ¬ Msg.digest
        { sender_id := 0, sender_quorum_set := demoQS, slot_index := 1
        , topic := Topic.Nominate { X := [], Y := [] } } ∈
      (Node.handle demoModel (demoTrace 0)
        { sender_id := 0, sender_quorum_set := demoQS, slot_index := 1
        , topic := Topic.Nominate { X := [], Y := [] } }).1.seen_msg_hashes.entries := by
  constructor
  · rfl
  · decide

/-! ## Branch equations for `Node::nominate`, and C5/C6/C7/C10 -/

theorem Node.nominate_emptyCall (M : SlotModel NId V E S) (n : Node NId V E S)
    (values : List V) (h : values.isEmpty = true) :
    Node.nominate M n values = (n, .ok none) := by
  unfold Node.nominate
  rw [if_pos h]

theorem Node.nominate_allInvalid (M : SlotModel NId V E S) (n : Node NId V E S)
    (values : List V) (h1 : ¬ values.isEmpty = true)
    (h2 : (values.filter (fun value => exceptIsOk (n.validity_fn value))).isEmpty = true) :
    Node.nominate M n values = (n, .ok none) := by
  unfold Node.nominate
  rw [if_neg h1, if_pos h2]

theorem Node.nominate_validCase (M : SlotModel NId V E S) (n : Node NId V E S)
    (values : List V)
    (h : ¬ (values.filter (fun value => exceptIsOk (n.validity_fn value))).isEmpty = true) :
    Node.nominate M n values =
      Node.dispatchEmission M n
        (M.proposeSt n.current_slot
          (values.filter (fun value => exceptIsOk (n.validity_fn value)))) := by
  have hne : ¬ values.isEmpty = true := by
    intro hv
    rw [List.isEmpty_iff] at hv
    subst hv
    simp at h
  unfold Node.nominate
  rw [if_neg hne, if_neg h]

/-- When the slot emits an Externalize whose payload holds a value rejected by
`validity_fn`, the emission tail errors with the source's message and leaves
the externalized history untouched. -/
theorem Node.dispatchEmission_error (M : SlotModel NId V E S) (n : Node NId V E S)
    (stepped : S × Except String (Option (Msg NId V))) (emsg : Msg NId V)
    (p : ExternalizePayload V)
    (hs : stepped.2 = .ok (some emsg)) (ht : emsg.topic = Topic.Externalize p)
    (hbad : ∃ v ∈ p.C.X, exceptIsOk (n.validity_fn v) = false) :
    (Node.dispatchEmission M n stepped).2 = .error errExternalizedInvalid ∧
    (Node.dispatchEmission M n stepped).1.externalized_slots = n.externalized_slots ∧
    (Node.dispatchEmission M n stepped).1.current_slot =
      { n.current_slot with st := stepped.1 } := by
  obtain ⟨s2, r⟩ := stepped
  simp only at hs
  subst hs
  obtain ⟨sid, sqs, sidx, tp⟩ := emsg
  simp only at ht
  subst ht
  have hb2 : (p.C.X.any fun value => !exceptIsOk (n.validity_fn value)) = true := by
    rw [List.any_eq_true]
    obtain ⟨v, hv, hfalse⟩ := hbad
    exact ⟨v, hv, by rw [hfalse]; rfl⟩
  have hx : Node.externalize M { n with current_slot := { n.current_slot with st := s2 } }
      sidx p =
      ({ n with current_slot := { n.current_slot with st := s2 } },
        .error errExternalizedInvalid) := by
    unfold Node.externalize
    rw [if_pos hb2]
  simp only [Node.dispatchEmission]
  rw [hx]
  exact ⟨rfl, rfl, rfl⟩

/-- C5: `Node::externalize` errors exactly when some value of the
externalized ballot fails `validity_fn`, touching nothing on error; on
success it appends the current slot to the history (evicting past the bound)
and advances to a fresh slot at `slot_index + 1` built from the same local
ID, quorum set, validity_fn and combine_fn.  The final two conjuncts are the
propagation of the error as the `Err` result of `handle` and of `nominate`
when the current slot emits an Externalize with an invalid value. -/
theorem c5_externalize_validity [DecidableEq NId] [DecidableEq V]
    (M : SlotModel NId V E S) (n : Node NId V E S) (i : Nat) (p : ExternalizePayload V) :
    ((∃ v ∈ p.C.X, exceptIsOk (n.validity_fn v) = false) →
      Node.externalize M n i p = (n, .error errExternalizedInvalid)) ∧
    ((∀ v ∈ p.C.X, exceptIsOk (n.validity_fn v) = true) →
      Node.externalize M n i p =
        ({ n with
            externalized_slots := evictOldest (n.externalized_slots ++ [n.current_slot])
          , current_slot := Slot.new M n.ID n.Q (i + 1) n.validity_fn n.combine_fn }
        , .ok ())) ∧
    ((Node.externalize M n i p).2 = .error errExternalizedInvalid ↔
      ∃ v ∈ p.C.X, exceptIsOk (n.validity_fn v) = false) ∧
    (∀ m : Msg NId V, ¬ m.sender_id = n.ID →
      ¬ n.current_slot.slot_index < m.slot_index →
      ¬ Msg.digest m ∈ n.seen_msg_hashes.entries →
      m.slot_index = n.current_slot.slot_index →
      ∀ emsg, (M.handleSt n.current_slot m).2 = .ok (some emsg) →
        emsg.topic = Topic.Externalize p →
        (∃ v ∈ p.C.X, exceptIsOk (n.validity_fn v) = false) →
        (Node.handle M n m).2 = .error errExternalizedInvalid ∧
        (Node.handle M n m).1.externalized_slots = n.externalized_slots) ∧
    (∀ values : List V,
      ¬ (values.filter (fun value => exceptIsOk (n.validity_fn value))).isEmpty = true →
      ∀ emsg, (M.proposeSt n.current_slot
          (values.filter (fun value => exceptIsOk (n.validity_fn value)))).2 =
            .ok (some emsg) →
        emsg.topic = Topic.Externalize p →
        (∃ v ∈ p.C.X, exceptIsOk (n.validity_fn v) = false) →
        (Node.nominate M n values).2 = .error errExternalizedInvalid ∧
        (Node.nominate M n values).1.externalized_slots = n.externalized_slots) := by
  have hiff : (p.C.X.any fun value => !exceptIsOk (n.validity_fn value)) = true ↔
      ∃ v ∈ p.C.X, exceptIsOk (n.validity_fn v) = false := by
    rw [List.any_eq_true]
    constructor
    · rintro ⟨v, hv, hf⟩
      refine ⟨v, hv, ?_⟩
      revert hf
      cases exceptIsOk (n.validity_fn v) <;> simp
    · rintro ⟨v, hv, hf⟩
      exact ⟨v, hv, by rw [hf]; rfl⟩
  have herr : (∃ v ∈ p.C.X, exceptIsOk (n.validity_fn v) = false) →
      Node.externalize M n i p = (n, .error errExternalizedInvalid) := by
    intro hb
    unfold Node.externalize
    rw [if_pos (hiff.mpr hb)]
  have hok : ¬ (∃ v ∈ p.C.X, exceptIsOk (n.validity_fn v) = false) →
      Node.externalize M n i p =
        ({ n with
            externalized_slots := evictOldest (n.externalized_slots ++ [n.current_slot])
          , current_slot := Slot.new M n.ID n.Q (i + 1) n.validity_fn n.combine_fn }
        , .ok ()) := by
    intro hg
    unfold Node.externalize
    rw [if_neg fun hc => hg (hiff.mp hc)]
  refine ⟨herr, ?_, ?_, ?_, ?_⟩
  · intro hgood
    refine hok ?_
    rintro ⟨v, hv, hf⟩
    rw [hgood v hv] at hf
    simp at hf
  · constructor
    · intro he
      by_cases hb : ∃ v ∈ p.C.X, exceptIsOk (n.validity_fn v) = false
      · exact hb
      · rw [hok hb] at he
        simp at he
    · intro hb
      rw [herr hb]
  · intro m h1 h2 h3 h4 emsg hstep htp hbad
    rw [Node.handle_current M n m h1 h2 h3 h4]
    have hd := Node.dispatchEmission_error M
      { n with seen_msg_hashes := n.seen_msg_hashes.put (Msg.digest m) }
      (M.handleSt n.current_slot m) emsg p hstep htp hbad
    exact ⟨hd.1, hd.2.1⟩
  · intro values hfil emsg hstep htp hbad
    rw [Node.nominate_validCase M n values hfil]
    have hd := Node.dispatchEmission_error M n
      (M.proposeSt n.current_slot
        (values.filter (fun value => exceptIsOk (n.validity_fn value))))
      emsg p hstep htp hbad
    exact ⟨hd.1, hd.2.1⟩

def demoValidityOdd : Nat → Except Unit Unit :=
  fun v => if v % 2 = 1 then .error () else .ok ()

def demoNodeOdd : Node Nat Nat Unit (Option (Msg Nat Nat)) :=
  Node.new demoModel 0 demoQS demoValidityOdd demoCombine 1

/-- C5: witness — on a node whose validity function rejects odd values,
externalizing the ballot `[3]` errors and externalizing `[2]` does not. -/
theorem c5_externalize_validity_witness :
    (Node.externalize demoModel demoNodeOdd 1
        { C := { N := 1, X := [3] }, HN := 1 }).2 = .error errExternalizedInvalid ∧
    ¬ (Node.externalize demoModel demoNodeOdd 1
        { C := { N := 1, X := [2] }, HN := 1 }).2 = .error errExternalizedInvalid :=
  ⟨(c5_externalize_validity demoModel demoNodeOdd 1
      { C := { N := 1, X := [3] }, HN := 1 }).2.2.1.mpr (by decide)
  , fun h => absurd ((c5_externalize_validity demoModel demoNodeOdd 1
      { C := { N := 1, X := [2] }, HN := 1 }).2.2.1.mp h) (by decide)⟩

/-- C6: `nominate` drops an empty call and a call whose every value fails
`validity_fn` (returning Ok(None) with the node untouched), and otherwise
forwards exactly the valid subset of the submitted values to the current
slot's propose. -/
theorem c6_nominate_filters (M : SlotModel NId V E S) (n : Node NId V E S)
    (values : List V) :
    (values = [] → Node.nominate M n values = (n, .ok none)) ∧
    (values.filter (fun value => exceptIsOk (n.validity_fn value)) = [] →
      Node.nominate M n values = (n, .ok none)) ∧
    (values.filter (fun value => exceptIsOk (n.validity_fn value)) ≠ [] →
      Node.nominate M n values =
        Node.dispatchEmission M n
          (M.proposeSt n.current_slot
            (values.filter (fun value => exceptIsOk (n.validity_fn value))))) := by
  refine ⟨?_, ?_, ?_⟩
  · intro h
    subst h
    exact Node.nominate_emptyCall M n [] rfl
  · intro h
    by_cases hv : values.isEmpty = true
    · exact Node.nominate_emptyCall M n values hv
    · exact Node.nominate_allInvalid M n values hv (by rw [h]; rfl)
  · intro h
    refine Node.nominate_validCase M n values ?_
    intro hc
    rw [List.isEmpty_iff] at hc
    exact h hc

/-- C6: witness — on the odd-rejecting node, the empty call and the all-odd
call are dropped with the node unchanged, and `[1, 2]` is filtered to `[2]`
before being proposed. -/
theorem c6_nominate_filters_witness :
    Node.nominate demoModel demoNodeOdd [] = (demoNodeOdd, .ok none) ∧
    Node.nominate demoModel demoNodeOdd [1, 3] = (demoNodeOdd, .ok none) ∧
    Node.nominate demoModel demoNodeOdd [1, 2] =
      Node.dispatchEmission demoModel demoNodeOdd
        (demoModel.proposeSt demoNodeOdd.current_slot
          ([1, 2].filter (fun value => exceptIsOk (demoNodeOdd.validity_fn value)))) :=
  ⟨(c6_nominate_filters demoModel demoNodeOdd []).1 rfl
  , (c6_nominate_filters demoModel demoNodeOdd [1, 3]).2.1 (by decide)
  , (c6_nominate_filters demoModel demoNodeOdd [1, 2]).2.2 (by decide)⟩

/-- C7: `handle` returns Ok(None) — emitting nothing, raising no error and
leaving the node untouched (so never dispatching to the current slot) — for
every message from the node itself and for every message whose slot index is
beyond the current slot. -/
theorem c7_handle_rejects [DecidableEq NId] [DecidableEq V] (M : SlotModel NId V E S)
    (n : Node NId V E S) (m : Msg NId V)
    (h : m.sender_id = n.ID ∨ n.current_slot.slot_index < m.slot_index) :
    Node.handle M n m = (n, .ok none) := by
  rcases h with h | h
  · exact Node.handle_self M n m h
  · by_cases h1 : m.sender_id = n.ID
    · exact Node.handle_self M n m h1
    · exact Node.handle_future M n m h1 h

/-- C7: witness — a self-sent message and a future-slot message on the fresh
demo node are both dropped with Ok(None). -/
theorem c7_handle_rejects_witness :
    Node.handle demoModel (demoTrace 0)
      { sender_id := 0, sender_quorum_set := demoQS, slot_index := 1
      , topic := Topic.Nominate { X := [], Y := [] } } = (demoTrace 0, .ok none) ∧
    Node.handle demoModel (demoTrace 0) (demoPeerMsg 5) = (demoTrace 0, .ok none) :=
  ⟨c7_handle_rejects demoModel (demoTrace 0) _ (Or.inl (by decide))
  , c7_handle_rejects demoModel (demoTrace 0) (demoPeerMsg 5) (Or.inr (by decide))⟩

/-- C10: `reset_slot_index i` replaces the current slot by a fresh slot at
index `i` built from the stored ID, quorum set, validity_fn and combine_fn,
and changes nothing else; in particular the dedup LRU survives, so a message
already recorded there is still deduplicated after the reset (returning
Ok(None) without touching the new current slot), including a reset to the
same slot index. -/
theorem c10_reset_frame [DecidableEq NId] [DecidableEq V] (M : SlotModel NId V E S)
    (n : Node NId V E S) (i : Nat) :
    Node.reset_slot_index M n i =
      { n with current_slot := Slot.new M n.ID n.Q i n.validity_fn n.combine_fn } ∧
    (Node.reset_slot_index M n i).externalized_slots = n.externalized_slots ∧
    (Node.reset_slot_index M n i).seen_msg_hashes = n.seen_msg_hashes ∧
    (Node.reset_slot_index M n i).ID = n.ID ∧
    (Node.reset_slot_index M n i).Q = n.Q ∧
    (Node.reset_slot_index M n i).scp_timebase = n.scp_timebase ∧
    (Node.reset_slot_index M n i).validity_fn = n.validity_fn ∧
    (Node.reset_slot_index M n i).combine_fn = n.combine_fn ∧
    (∀ m : Msg NId V, Msg.digest m ∈ n.seen_msg_hashes.entries →
      ¬ m.sender_id = n.ID → m.slot_index ≤ i →
      (Node.handle M (Node.reset_slot_index M n i) m).2 = .ok none ∧
      (Node.handle M (Node.reset_slot_index M n i) m).1.current_slot =
        (Node.reset_slot_index M n i).current_slot) := by
  refine ⟨rfl, rfl, rfl, rfl, rfl, rfl, rfl, rfl, ?_⟩
  intro m hmem hns hle
  have h2 : ¬ (Node.reset_slot_index M n i).current_slot.slot_index < m.slot_index := by
    show ¬ i < m.slot_index
    omega
  have hd := Node.handle_dup M (Node.reset_slot_index M n i) m hns h2 hmem
  rw [hd]
  exact ⟨rfl, rfl⟩

/-- C10: witness — after one handled message, reset to the node's current
slot index (2); replaying the recorded message is still deduplicated. -/
theorem c10_reset_frame_witness :
    (Node.handle demoModel
      (Node.reset_slot_index demoModel (demoTrace 1) 2) (demoPeerMsg 1)).2 = .ok none ∧
    (Node.reset_slot_index demoModel (demoTrace 1) 2).externalized_slots =
      (demoTrace 1).externalized_slots ∧
    (Node.reset_slot_index demoModel (demoTrace 1) 2).seen_msg_hashes =
      (demoTrace 1).seen_msg_hashes :=
  ⟨((c10_reset_frame demoModel (demoTrace 1) 2).2.2.2.2.2.2.2.2
      (demoPeerMsg 1) (by decide) (by decide) (by decide)).1
  , (c10_reset_frame demoModel (demoTrace 1) 2).2.1
  , (c10_reset_frame demoModel (demoTrace 1) 2).2.2.1⟩

/-! ## C8: what `get_highest_ballot` maximizes -/

theorem pairLexLe_refl (a : Nat × Nat) : pairLexLe a a := Or.inr ⟨rfl, le_refl _⟩

theorem pairLexLe_trans {a b c : Nat × Nat} (h1 : pairLexLe a b) (h2 : pairLexLe b c) :
    pairLexLe a c := by
  rcases h1 with h1 | ⟨h1, h1b⟩ <;> rcases h2 with h2 | ⟨h2, h2b⟩
  · exact Or.inl (h1.trans h2)
  · exact Or.inl (h2 ▸ h1)
  · exact Or.inl (h1 ▸ h2)
  · exact Or.inr ⟨h1.trans h2, h1b.trans h2b⟩

theorem tupleCmp_gt_le (a b : Nat × Nat) (h : tupleCmp a b = .gt) : pairLexLe b a := by
  unfold tupleCmp at h
  cases hc : compare a.1 b.1 with
  | lt => rw [hc] at h; cases h
  | eq =>
    rw [hc] at h
    rw [Nat.compare_eq_eq] at hc
    rw [Nat.compare_eq_gt] at h
    exact Or.inr ⟨hc.symm, le_of_lt h⟩
  | gt =>
    rw [Nat.compare_eq_gt] at hc
    exact Or.inl hc

theorem tupleCmp_not_gt_le (a b : Nat × Nat) (h : ¬ tupleCmp a b = .gt) : pairLexLe a b := by
  unfold tupleCmp at h
  cases hc : compare a.1 b.1 with
  | lt =>
    rw [Nat.compare_eq_lt] at hc
    exact Or.inl hc
  | eq =>
    rw [hc] at h
    rw [Nat.compare_eq_eq] at hc
    refine Or.inr ⟨hc, ?_⟩
    by_contra hb
    exact h (Nat.compare_eq_gt.mpr (lt_of_not_le hb))
  | gt =>
    rw [hc] at h
    exact absurd rfl h

/-- The fold inside `listMaxPair` returns an element of `x :: xs` that is a
lexicographic (lower bound first) upper bound of `x :: xs`. -/
theorem foldMax_spec : ∀ (xs : List (Nat × Nat)) (x : Nat × Nat),
    (xs.foldl (fun acc y => if tupleCmp acc y = .gt then acc else y) x = x ∨
      xs.foldl (fun acc y => if tupleCmp acc y = .gt then acc else y) x ∈ xs) ∧
    pairLexLe x (xs.foldl (fun acc y => if tupleCmp acc y = .gt then acc else y) x) ∧
    ∀ q ∈ xs, pairLexLe q (xs.foldl (fun acc y => if tupleCmp acc y = .gt then acc else y) x)
  | [], x => ⟨Or.inl rfl, pairLexLe_refl x, by simp⟩
  | y :: ys, x => by
    simp only [List.foldl_cons]
    by_cases hc : tupleCmp x y = .gt
    · rw [if_pos hc]
      obtain ⟨hmem, hle, hall⟩ := foldMax_spec ys x
      refine ⟨?_, hle, ?_⟩
      · rcases hmem with h | h
        · exact Or.inl h
        · exact Or.inr (List.mem_cons_of_mem y h)
      · intro q hq
        rcases List.mem_cons.mp hq with h | h
        · subst h
          exact pairLexLe_trans (tupleCmp_gt_le x q hc) hle
        · exact hall q h
    · rw [if_neg hc]
      obtain ⟨hmem, hle, hall⟩ := foldMax_spec ys y
      refine ⟨?_, ?_, ?_⟩
      · rcases hmem with h | h
        · exact Or.inr (by rw [h]; exact List.mem_cons_self y ys)
        · exact Or.inr (List.mem_cons_of_mem y h)
      · exact pairLexLe_trans (tupleCmp_not_gt_le x y hc) hle
      · intro q hq
        rcases List.mem_cons.mp hq with h | h
        · subst h
          exact hle
        · exact hall q h

/-- C8 (amended): for the empty result list `get_highest_ballot` returns
`None`; for a non-empty one it returns the (min, max) pair that is maximal in
the order Rust's `(u32, u32)` `Ord` induces — lexicographic with the LOWER
bound (min) compared first, then the upper bound — not upper bound first as
the claim states. -/
theorem c8_get_highest_ballot (results : List (α × (Nat × Nat))) :
    (results = [] → get_highest_ballot results = none) ∧
    (results ≠ [] → ∃ res, get_highest_ballot results = some res ∧
      res ∈ results.map (fun r => r.2) ∧
      ∀ q ∈ results.map (fun r => r.2), pairLexLe q res) := by
  constructor
  · intro h
    subst h
    rfl
  · intro h
    rcases hm : results.map (fun r => r.2) with _ | ⟨x, xs⟩
    · exact absurd (List.map_eq_nil_iff.mp hm) h
    · have hv : get_highest_ballot results =
          some (xs.foldl (fun acc y => if tupleCmp acc y = .gt then acc else y) x) := by
        unfold get_highest_ballot
        rw [hm]
        rfl
      obtain ⟨hmem, hle, hall⟩ := foldMax_spec xs x
      refine ⟨_, hv, ?_, ?_⟩
      · rw [hm]
        rcases hmem with hh | hh
        · rw [hh]
          exact List.mem_cons_self x xs
        · exact List.mem_cons_of_mem x hh
      · rw [hm]
        intro q hq
        rcases List.mem_cons.mp hq with hh | hh
        · subst hh
          exact hle
        · exact hall q hh

def demoResults : List (List Nat × (Nat × Nat)) := [([1], (1, 100)), ([2], (2, 3))]

/-- C8: witness for the amended theorem at a two-element result list. -/
theorem c8_get_highest_ballot_witness :
    get_highest_ballot demoResults = some (2, 3) ∧ pairLexLe (1, 100) (2, 3) := by
  obtain ⟨res, hres, hmem, hall⟩ := (c8_get_highest_ballot demoResults).2 (by decide)
  have h2 : get_highest_ballot demoResults = some (2, 3) := by decide
  rw [hres] at h2
  have he : res = (2, 3) := Option.some.inj h2
  subst he
  exact ⟨hres, hall (1, 100) (by decide)⟩

/-- C8: counterexample to the claim as stated: on the results
`[(1, 100), (2, 3)]` the source returns (2, 3) — Rust's tuple `Ord`
maximizes by the lower bound (min) first — while maximizing "by upper bound
(max) first and then by lower bound (min)", as the claim says, would pick
(1, 100). -/
theorem c8_counterexample :
    get_highest_ballot demoResults = some (2, 3) ∧
    get_highest_ballot_specUpperFirst demoResults = some (1, 100) ∧
    get_highest_ballot demoResults ≠ get_highest_ballot_specUpperFirst demoResults := by
  refine ⟨?_, ?_, ?_⟩ <;> decide

def c9Input : String := "([3],1,2,3,4,([2],5,6,([1],7,8)))"

/-- C9: parsing the spec's nested quorum-set string and stringifying the
result reproduces the input byte for byte. -/
theorem c9_quorum_set_round_trip :
    (test_quorum_set_from_string c9Input).map test_quorum_set_to_string = some c9Input := by
  decide
